import Mathlib

/-!
Verification of `comp.py`, the scenario-comparison script of the urbs project.

The script compares several energy-system optimisation runs.  Its algorithmic
core consists of
  * `deduplicate_legend` - removing duplicate labels from a figure legend and
    sorting the surviving entries by label,
  * `group_hbar_plots` - recomputing the vertical offset of horizontal-bar
    patches so that consecutive rows are clustered into groups,
  * `compare_scenarios` - deriving scenario names from file names, moving a
    scenario called "base" to the front, merging per-scenario tables under an
    outer scenario-name key, and deriving sign-bucketed / threshold-filtered /
    storage-split presentation views.

Numeric values are modelled by `ℚ`; tables are modelled by association lists
that keep the ordering pandas keeps.
-/

namespace Comp

/-! ### deduplicate_legend (comp.py lines 42-60) -/

/-- The deduplication loop of `deduplicate_legend`: walk over the zipped
`(handle, label)` pairs and keep a pair only if its label has not been seen
before (`seen` is the list `new_labels` accumulated so far). -/
def dedupPairs {H : Type} : List (H × String) → List String → List (H × String)
  | [], _ => []
  | p :: ps, seen =>
    if p.2 ∈ seen then dedupPairs ps seen
    else p :: dedupPairs ps (p.2 :: seen)

/-- Comparison used for the final `sorted(zip(new_labels, new_handles))`:
Python sorts the pairs lexicographically, label first.  After deduplication
all labels are distinct, so the handle component is never compared (indeed
matplotlib handles do not support `<`), and ordering by label alone is the
exact behaviour. -/
def legendLe (H : Type) (a b : H × String) : Prop := a.2 ≤ b.2

instance (H : Type) : DecidableRel (legendLe H) :=
  fun a b => inferInstanceAs (Decidable (a.2 ≤ b.2))

instance (H : Type) : IsTotal (H × String) (legendLe H) :=
  ⟨fun a b => le_total a.2 b.2⟩

instance (H : Type) : IsTrans (H × String) (legendLe H) :=
  ⟨fun _ _ _ hab hbc => le_trans hab hbc⟩

/-- Shallow embedding of `deduplicate_legend(handles, labels)`.

The final line of the Python function,
`new_labels, new_handles = (list(t) for t in zip(*sorted(zip(new_labels, new_handles))))`,
raises `ValueError` ("not enough values to unpack") when the deduplicated list
is empty, because `zip()` of no arguments yields no tuples at all.  That
failure is modelled by returning `none`.  On success the function returns the
pair `(new_handles, new_labels)`. -/
def deduplicate_legend {H : Type} (handles : List H) (labels : List String) :
    Option (List H × List String) :=
  let deduped := dedupPairs (handles.zip labels) []
  let sortedPairs := List.insertionSort (legendLe H) deduped
  match sortedPairs with
  | [] => none
  | _ :: _ => some (sortedPairs.map Prod.fst, sortedPairs.map Prod.snd)

/-! ### group_hbar_plots (comp.py lines 62-84) -/

/-- Default vertical spacing inside a group: `0.5 * (1 - bar_height)`. -/
def default_inner_sep (bar_height : ℚ) : ℚ := (1/2) * (1 - bar_height)

/-- Effective inner separation.  The Python guard is `if not inner_sep`, which
is truthy-based: both `None` (argument not supplied) and a supplied `0.0` are
replaced by the default. -/
def effective_inner_sep (bar_height : ℚ) : Option ℚ → ℚ
  | none => default_inner_sep bar_height
  | some s => if s = 0 then default_inner_sep bar_height else s

/-- The `group_offset` computed inside the patch loop of `group_hbar_plots`. -/
def group_offset (group_size : ℕ) (bar_height sep : ℚ) (group_number : ℕ) : ℚ :=
  (group_number : ℚ) * (group_size : ℚ)
    + (1/2) * ((group_size : ℚ) - 1) * (1 - sep)
    - (1/2) * ((group_size : ℚ) * bar_height)

/-- Vertical offset `patch.set_y(...)` assigned by `group_hbar_plots` to the
patch at row index `row`: Python's `divmod(row, group_size)` is `(/, %)` on
naturals, and the separation is the effective one. -/
def patch_y (group_size : ℕ) (bar_height : ℚ) (inner_sep : Option ℚ) (row : ℕ) : ℚ :=
  ((row % group_size : ℕ) : ℚ) * (bar_height + effective_inner_sep bar_height inner_sep)
    + group_offset group_size bar_height (effective_inner_sep bar_height inner_sep)
      (row / group_size)

/-- The offset formula exactly as claim C8 words it, with `inner_sep` read as
the value the caller supplied (spec-side definition, for comparison with
`patch_y`). -/
def claimed_patch_y (group_size : ℕ) (bar_height sep : ℚ) (row : ℕ) : ℚ :=
  ((row % group_size : ℕ) : ℚ) * (bar_height + sep)
    + group_offset group_size bar_height sep (row / group_size)

/-! ### compare_scenarios: scenario names and base reordering (lines 104-117) -/

/-- `os.path.basename` on a POSIX path: the characters after the last slash
(the whole string if there is none). -/
def basename_chars (cs : List Char) : List Char :=
  cs.foldl (fun acc c => if c = ('/') then [] else acc ++ [c]) []

/-- Does `old` occur as an initial run of `cs`? -/
def starts_with : List Char → List Char → Bool
  | [], _ => true
  | _ :: _, [] => false
  | o :: os, c :: cs => o = c && starts_with os cs

/-- Python's `str.replace(old, new)` for a non-empty `old`: scan left to
right, replacing non-overlapping occurrences.  The scan consumes at least one
character per step, so running it on fuel `cs.length` computes it with
structural recursion. -/
def replace_fuel : ℕ → List Char → List Char → List Char → List Char
  | 0, cs, _, _ => cs
  | _ + 1, [], _, _ => []
  | fuel + 1, c :: cs, old, new =>
    if old ≠ [] ∧ starts_with old (c :: cs) then
      new ++ replace_fuel fuel (cs.drop (old.length - 1)) old new
    else c :: replace_fuel fuel cs old new

/-- `str.replace` lifted back to `String`. -/
def py_replace (s old new : String) : String :=
  ⟨replace_fuel s.data.length s.data old.data new.data⟩

/-- Derivation of a scenario name from a result-file path
(`os.path.basename`, then `str.replace` of underscores, of the extension and
of the "scenario " marker; Python's `replace` substitutes every occurrence). -/
def scenario_name (rf : String) : String :=
  py_replace (py_replace (py_replace (⟨basename_chars rf.data⟩) ("_") (" "))
    (".xlsx") ("")) ("scenario ") ("")

/-- Python's `list.index`: index of the first occurrence, `none` in place of
the `ValueError` raised when the element is absent. -/
def py_index (x : String) : List String → Option ℕ
  | [] => none
  | n :: ns => if n = x then some 0 else (py_index x ns).map (· + 1)

/-- The base-scenario reordering block of `compare_scenarios`:
`scenario_names.index('base')` followed by `pop`/`insert(0, ...)` on both
`result_files` and `scenario_names`; the `ValueError` of a missing "base" is
caught and ignored.  The state of the two lists after the block is returned. -/
def moveBaseToFront {F : Type} (scenario_names : List String) (result_files : List F) :
    List String × List F :=
  match py_index ("base") scenario_names with
  | none => (scenario_names, result_files)
  | some i =>
    match result_files[i]?, scenario_names[i]? with
    | some f, some n => (n :: scenario_names.eraseIdx i, f :: result_files.eraseIdx i)
    | _, _ => (scenario_names, result_files)

/-- Net effect of `compare_scenarios` on the caller's `result_files` list:
the list object is mutated in place by `pop`/`insert`, so its final state is
the reordered list.  Scenario names are derived from the files themselves. -/
def compare_scenarios_result_files (result_files : List String) : List String :=
  (moveBaseToFront (result_files.map scenario_name) result_files).2

/-- The scenario-name list `compare_scenarios` works with after the
base-scenario reordering. -/
def compare_scenarios_scenario_names (result_files : List String) : List String :=
  (moveBaseToFront (result_files.map scenario_name) result_files).1

/-! ### compare_scenarios: merging (lines 119-145) -/

/-- `pd.concat(tables, axis=1, keys=scenario_names)`: the per-scenario tables
are laid side by side under a new outer key level holding the scenario name,
in input order.  Only the key structure matters for the claims, so a merged
table is the list of (scenario name, per-scenario table) pairs. -/
def mergeWithKeys {T : Type} (keys : List String) (tables : List T) : List (String × T) :=
  keys.zip tables

/-- Outer (scenario-name) key level of a merged table, in column order. -/
def outerKeys {T : Type} (merged : List (String × T)) : List String :=
  merged.map Prod.fst

/-- The READ loop (lines 125-140): one parsed table per result file, in file
order. -/
def read_tables {T : Type} (parse : String → T) (result_files : List String) : List T :=
  result_files.map parse

/-! ### compare_scenarios: cost bucketing (lines 153-157)

After `costs.sort_index().transpose()` the rows of `costs` are scenarios and
the columns are cost types.  A column is modelled as the pair of its cost-type
label and its list of per-scenario values. -/

/-- `costs.sum()` for one column: the column sum over all scenarios. -/
def colSum (col : String × List ℚ) : ℚ := col.2.sum

/-- `spent = costs.loc[:, costs.sum() > 0]`. -/
def spent (costs : List (String × List ℚ)) : List (String × List ℚ) :=
  costs.filter (fun c => decide (0 < colSum c))

/-- `earnt = costs.loc[:, costs.sum() < 0]`. -/
def earnt (costs : List (String × List ℚ)) : List (String × List ℚ) :=
  costs.filter (fun c => decide (colSum c < 0))

/-! ### compare_scenarios: energy-sum filtering (lines 160-167)

`created` and `consumed` have one column per technology; a column is the pair
of its label and its per-(scenario, commodity)-row values.  `consumed` is
already sign-flipped (`- esums.loc['Consumed'] ...`) when the filter runs. -/

/-- Filter predicate `created.sum() > 0.1` for one column. -/
def created_keeps (col : String × List ℚ) : Bool := decide ((1 : ℚ)/10 < colSum col)

/-- Filter predicate `consumed.sum() < -0.1` for one column. -/
def consumed_keeps (col : String × List ℚ) : Bool := decide (colSum col < -((1 : ℚ)/10))

/-- Unit scaling `/ 1e3` applied after the filter. -/
def scale_col (col : String × List ℚ) : String × List ℚ :=
  (col.1, col.2.map (fun v => v / 1000))

/-- `created = created.loc[:, created.sum() > 0.1] / 1e3`. -/
def filter_created (t : List (String × List ℚ)) : List (String × List ℚ) :=
  (t.filter created_keeps).map scale_col

/-- `consumed = consumed.loc[:, consumed.sum() < -0.1] / 1e3`. -/
def filter_consumed (t : List (String × List ℚ)) : List (String × List ℚ) :=
  (t.filter consumed_keeps).map scale_col

/-! ### compare_scenarios: storage splitting (lines 169-188) -/

/-- One row of the broadened retrieved-storage table: key (scenario,
commodity), and the two synthetic columns. -/
structure StoRow where
  scenario : String
  commodity : String
  battery : ℚ
  reservoir : ℚ
deriving DecidableEq

/-- Ascending order on the (scenario, commodity) key of the raw retrieved
series (`sort_index()` on line 169). -/
def stoTriLe (r s : String × String × ℚ) : Prop :=
  r.1 < s.1 ∨ (r.1 = s.1 ∧ r.2.1 ≤ s.2.1)

instance : DecidableRel stoTriLe :=
  fun r s => inferInstanceAs (Decidable (r.1 < s.1 ∨ (r.1 = s.1 ∧ r.2.1 ≤ s.2.1)))

/-- Ascending order on the (scenario, commodity) key of the broadened table
(`sort_index()` on line 185). -/
def stoRowLe (r s : StoRow) : Prop :=
  r.scenario < s.scenario ∨ (r.scenario = s.scenario ∧ r.commodity ≤ s.commodity)

instance : DecidableRel stoRowLe :=
  fun r s =>
    inferInstanceAs (Decidable (r.scenario < s.scenario ∨
      (r.scenario = s.scenario ∧ r.commodity ≤ s.commodity)))

/-- Scenario-descending, commodity-ascending order
(`sort_index(ascending=[False, True])` on line 188). -/
def stoRowLe2 (r s : StoRow) : Prop :=
  s.scenario < r.scenario ∨ (r.scenario = s.scenario ∧ r.commodity ≤ s.commodity)

instance : DecidableRel stoRowLe2 :=
  fun r s =>
    inferInstanceAs (Decidable (s.scenario < r.scenario ∨
      (r.scenario = s.scenario ∧ r.commodity ≤ s.commodity)))

/-- `sto_sums = sto_sums / 1e3` (line 172). -/
def sto_scale (rows : List (String × String × ℚ)) : List (String × String × ℚ) :=
  rows.map (fun r => (r.1, r.2.1, r.2.2 / 1000))

/-- `pd.concat([sto_sums, sto_sums], axis=1)` with columns renamed to
`['Battery', 'Reservoir']` (lines 183-184): the single retrieved value is
duplicated into both synthetic columns. -/
def broaden_sto (rows : List (String × String × ℚ)) : List StoRow :=
  rows.map (fun r => ⟨r.1, r.2.1, r.2.2, r.2.2⟩)

/-- `sto_sums.loc[(slice(None), 'Elec'), 'Reservoir'] = 0` (line 186). -/
def zero_elec_reservoir (rows : List StoRow) : List StoRow :=
  rows.map (fun r => if r.commodity = ("Elec") then { r with reservoir := 0 } else r)

/-- `sto_sums.loc[(slice(None), 'Heat'), 'Battery'] = 0` (line 187). -/
def zero_heat_battery (rows : List StoRow) : List StoRow :=
  rows.map (fun r => if r.commodity = ("Heat") then { r with battery := 0 } else r)

/-- Lines 169-188: the whole retrieved-storage pipeline, from the raw
(scenario, commodity, value) series to the broadened, zeroed and re-sorted
two-column table.  (The later `drop('CO2', level=1)` on line 192 only removes
rows and is outside the split itself.) -/
def sto_split (rows : List (String × String × ℚ)) : List StoRow :=
  List.insertionSort stoRowLe2
    (zero_heat_battery (zero_elec_reservoir
      (List.insertionSort stoRowLe
        (broaden_sto (sto_scale (List.insertionSort stoTriLe rows))))))

/-! ### Helper lemmas: `py_index` and `moveBaseToFront` -/

theorem py_index_lt_length {x : String} {ns : List String} {i : ℕ}
    (h : py_index x ns = some i) : i < ns.length := by
  induction ns generalizing i with
  | nil => simp [py_index] at h
  | cons n ns ih =>
    simp only [py_index] at h
    by_cases hn : n = x
    · simp [hn] at h
      simp only [List.length_cons]
      omega
    · simp only [hn, if_false, Option.map_eq_some'] at h
      obtain ⟨j, hj, rfl⟩ := h
      have := ih hj
      simp only [List.length_cons]
      omega

theorem py_index_get {x : String} {ns : List String} {i : ℕ}
    (h : py_index x ns = some i) : ns[i]? = some x := by
  induction ns generalizing i with
  | nil => simp [py_index] at h
  | cons n ns ih =>
    simp only [py_index] at h
    by_cases hn : n = x
    · simp [hn] at h
      subst h
      simp [hn]
    · simp only [hn, if_false, Option.map_eq_some'] at h
      obtain ⟨j, hj, rfl⟩ := h
      simpa using ih hj

theorem py_index_eq_none {x : String} {ns : List String} :
    py_index x ns = none ↔ x ∉ ns := by
  induction ns with
  | nil => simp [py_index]
  | cons n ns ih =>
    by_cases hn : n = x
    · simp [py_index, hn]
    · simp only [py_index, hn, if_false, Option.map_eq_none', ih, List.mem_cons]
      constructor
      · intro hx hor
        rcases hor with h | h
        · exact hn h.symm
        · exact hx h
      · intro hx h
        exact hx (Or.inr h)

theorem py_index_first {x : String} {ns : List String} {i : ℕ}
    (h : py_index x ns = some i) : ∀ j, j < i → ns[j]? ≠ some x := by
  induction ns generalizing i with
  | nil => simp [py_index] at h
  | cons n ns ih =>
    simp only [py_index] at h
    by_cases hn : n = x
    · simp [hn] at h
      intro j hj
      omega
    · simp only [hn, if_false, Option.map_eq_some'] at h
      obtain ⟨k, hk, rfl⟩ := h
      intro j hj
      cases j with
      | zero => simp [hn]
      | succ j =>
        simp only [List.getElem?_cons_succ]
        exact ih hk j (by omega)

theorem py_index_exists_of_mem {x : String} {ns : List String} (h : x ∈ ns) :
    ∃ i, py_index x ns = some i := by
  cases hpy : py_index x ns with
  | none => exact absurd (py_index_eq_none.mp hpy) (not_not.mpr h)
  | some i => exact ⟨i, rfl⟩

theorem moveBaseToFront_of_not_mem {F : Type} {names : List String} {files : List F}
    (h : ("base") ∉ names) : moveBaseToFront names files = (names, files) := by
  simp [moveBaseToFront, py_index_eq_none.mpr h]

theorem moveBaseToFront_of_index {F : Type} {names : List String} {files : List F} {i : ℕ}
    (hlen : names.length = files.length) (hi : py_index ("base") names = some i) :
    ∃ f, files[i]? = some f ∧
      moveBaseToFront names files =
        (("base") :: names.eraseIdx i, f :: files.eraseIdx i) := by
  have hget : names[i]? = some ("base") := py_index_get hi
  have hlt : i < names.length := py_index_lt_length hi
  have hfl : i < files.length := hlen ▸ hlt
  refine ⟨files[i], List.getElem?_eq_getElem hfl, ?_⟩
  simp [moveBaseToFront, hi, hget, List.getElem?_eq_getElem hfl]

/-! ### Claim theorems C2, C10, C1 -/

/-- C2: if some derived scenario name equals "base", `compare_scenarios` moves
that entry (and its result file) to position 0, preserving the relative order
of all other entries; if no name equals "base", the `ValueError` is caught and
both lists keep their original order. -/
theorem base_reordering_spec (F : Type) (names : List String) (files : List F)
    (hlen : names.length = files.length) :
    (("base") ∉ names → moveBaseToFront names files = (names, files)) ∧
    (("base") ∈ names → ∃ i f, names[i]? = some ("base") ∧
      (∀ j, j < i → names[j]? ≠ some ("base")) ∧ files[i]? = some f ∧
      moveBaseToFront names files =
        (("base") :: names.eraseIdx i, f :: files.eraseIdx i)) := by
  refine ⟨moveBaseToFront_of_not_mem, fun hmem => ?_⟩
  obtain ⟨i, hi⟩ := py_index_exists_of_mem hmem
  obtain ⟨f, hf, heq⟩ := moveBaseToFront_of_index hlen hi
  exact ⟨i, f, py_index_get hi, py_index_first hi, hf, heq⟩

theorem base_reordering_spec_witness :
    moveBaseToFront (["x", "y"]) ([0, 1] : List ℕ) = (["x", "y"], [0, 1]) :=
  (base_reordering_spec ℕ (["x", "y"]) [0, 1] (by decide)).1 (by decide)

/-- C10: the net effect of `compare_scenarios` on the caller's `result_files`
list (mutated in place by `pop`/`insert`): with a "base" scenario present the
list ends up with the base workbook first and the rest in their original
relative order; without one it is unchanged. -/
theorem compare_scenarios_result_files_effect (files : List String) :
    (("base") ∉ files.map scenario_name →
      compare_scenarios_result_files files = files) ∧
    (("base") ∈ files.map scenario_name →
      ∃ i f, files[i]? = some f ∧ scenario_name f = ("base") ∧
        (∀ j g, j < i → files[j]? = some g → scenario_name g ≠ ("base")) ∧
        compare_scenarios_result_files files = f :: files.eraseIdx i) := by
  constructor
  · intro hmem
    simp [compare_scenarios_result_files, moveBaseToFront_of_not_mem hmem]
  · intro hmem
    obtain ⟨i, hi⟩ := py_index_exists_of_mem hmem
    have hlen : (files.map scenario_name).length = files.length := List.length_map _ _
    obtain ⟨f, hf, heq⟩ := moveBaseToFront_of_index hlen hi
    have hname : (files.map scenario_name)[i]? = some ("base") := py_index_get hi
    have hfname : scenario_name f = ("base") := by
      rw [List.getElem?_map, hf] at hname
      simpa using hname
    refine ⟨i, f, hf, hfname, ?_, ?_⟩
    · intro j g hj hg hgb
      have := py_index_first hi j hj
      rw [List.getElem?_map, hg] at this
      simp [hgb] at this
    · simp [compare_scenarios_result_files, heq]

theorem compare_scenarios_result_files_effect_witness :
    compare_scenarios_result_files (["r/scenario_x.xlsx", "r/scenario_y.xlsx"]) =
      ["r/scenario_x.xlsx", "r/scenario_y.xlsx"] :=
  (compare_scenarios_result_files_effect
    (["r/scenario_x.xlsx", "r/scenario_y.xlsx"])).1 (by decide)

/-- C1: the merged cost, energy-sum and capacity tables are the per-scenario
tables concatenated under a new outer key level holding the scenario name, and
in every merged table the scenario keys appear exactly in input order. -/
theorem merged_tables_outer_keys (CT ET PT : Type)
    (parse_cost : String → CT) (parse_esum : String → ET) (parse_cap : String → PT)
    (names files : List String) (hlen : names.length = files.length) :
    outerKeys (mergeWithKeys names (read_tables parse_cost files)) = names ∧
    outerKeys (mergeWithKeys names (read_tables parse_esum files)) = names ∧
    outerKeys (mergeWithKeys names (read_tables parse_cap files)) = names ∧
    (∀ (i : ℕ) (n : String), names[i]? = some n →
      ∃ f, files[i]? = some f ∧
        (mergeWithKeys names (read_tables parse_cost files))[i]? =
          some (n, parse_cost f) ∧
        (mergeWithKeys names (read_tables parse_esum files))[i]? =
          some (n, parse_esum f) ∧
        (mergeWithKeys names (read_tables parse_cap files))[i]? =
          some (n, parse_cap f)) := by
  have hkeys : ∀ {T : Type} (parse : String → T),
      outerKeys (mergeWithKeys names (read_tables parse files)) = names := by
    intro T parse
    unfold outerKeys mergeWithKeys
    exact List.map_fst_zip _ _ (by simp [read_tables, hlen])
  refine ⟨hkeys parse_cost, hkeys parse_esum, hkeys parse_cap, ?_⟩
  intro i n hn
  have hilt : i < names.length := by
    by_contra hge
    rw [List.getElem?_eq_none (by omega)] at hn
    exact Option.noConfusion hn
  have hif : i < files.length := hlen ▸ hilt
  have hnames : names[i] = n := by
    rw [List.getElem?_eq_getElem hilt] at hn
    exact Option.some.inj hn
  have hzip : ∀ {T : Type} (parse : String → T),
      (mergeWithKeys names (read_tables parse files))[i]? = some (n, parse files[i]) := by
    intro T parse
    have hal : i < (read_tables parse files).length := by
      simpa [read_tables] using hif
    have hiz : i < (names.zip (read_tables parse files)).length := by
      rw [List.length_zip]
      omega
    show (names.zip (read_tables parse files))[i]? = some (n, parse files[i])
    rw [List.getElem?_eq_getElem hiz, List.getElem_zip]
    simp [read_tables, hnames]
  exact ⟨files[i], List.getElem?_eq_getElem hif, hzip parse_cost,
    hzip parse_esum, hzip parse_cap⟩

theorem merged_tables_outer_keys_witness :
    outerKeys (mergeWithKeys (["base", "a"]) (read_tables String.length (["fb", "fa"]))) =
      ["base", "a"] :=
  (merged_tables_outer_keys ℕ ℕ ℕ String.length String.length String.length
    (["base", "a"]) (["fb", "fa"]) (by decide)).1

/-! ### Claim theorems C3, C4, C5 -/

/-- C3: every cost type with strictly positive column sum lands in `spent` and
not in `earnt`, every one with strictly negative column sum lands in `earnt`
and not in `spent`, a zero-sum cost type lands in neither, and no cost type is
in both views. -/
theorem cost_sign_bucketing (costs : List (String × List ℚ)) (c : String × List ℚ)
    (hc : c ∈ costs) :
    (0 < colSum c → c ∈ spent costs ∧ c ∉ earnt costs) ∧
    (colSum c < 0 → c ∈ earnt costs ∧ c ∉ spent costs) ∧
    (colSum c = 0 → c ∉ spent costs ∧ c ∉ earnt costs) ∧
    ¬(c ∈ spent costs ∧ c ∈ earnt costs) := by
  simp only [spent, earnt, List.mem_filter, decide_eq_true_eq]
  refine ⟨?_, ?_, ?_, ?_⟩
  · intro h
    exact ⟨⟨hc, h⟩, fun hh => absurd hh.2 (by linarith)⟩
  · intro h
    exact ⟨⟨hc, h⟩, fun hh => absurd hh.2 (by linarith)⟩
  · intro h
    exact ⟨fun hh => absurd hh.2 (by linarith), fun hh => absurd hh.2 (by linarith)⟩
  · rintro ⟨⟨-, h1⟩, ⟨-, h2⟩⟩
    linarith

theorem cost_sign_bucketing_witness :
    ((("Invest"), [(2 : ℚ), 3]) ∈ spent ([(("Invest"), [(2 : ℚ), 3]), (("Revenue"), [-(1 : ℚ)])]) ∧
      (("Invest"), [(2 : ℚ), 3]) ∉ earnt ([(("Invest"), [(2 : ℚ), 3]), (("Revenue"), [-(1 : ℚ)])])) :=
  (cost_sign_bucketing ([(("Invest"), [(2 : ℚ), 3]), (("Revenue"), [-(1 : ℚ)])])
    ((("Invest"), [(2 : ℚ), 3])) (by decide)).1 (by norm_num [colSum])

/-- C4 as stated is false: the Created filter keeps a column iff its sum is
strictly greater than 0.1, not iff the absolute value of its sum exceeds 0.1.
A created column with sum -1 has absolute summed magnitude 1 > 0.1 yet is
removed by `created.loc[:, created.sum() > 0.1]`. -/
theorem energy_threshold_abs_counterexample :
    (1 : ℚ)/10 < |colSum ((("Elec"), [(-1 : ℚ)]))| ∧
    filter_created ([(("Elec"), [(-1 : ℚ)])]) = [] := by
  have hk : created_keeps ((("Elec"), [(-1 : ℚ)])) = false := by
    simp only [created_keeps, colSum, List.sum_cons, List.sum_nil, decide_eq_false_iff_not,
      not_lt]
    norm_num
  constructor
  · norm_num [colSum]
  · simp [filter_created, hk]

theorem scale_col_injective : Function.Injective scale_col := by
  intro a b hab
  simp only [scale_col, Prod.mk.injEq] at hab
  obtain ⟨h1, h2⟩ := hab
  have hf : Function.Injective (fun v : ℚ => v / 1000) := by
    intro x y hxy
    have := congrArg (fun z : ℚ => z * 1000) hxy
    simpa [div_mul_cancel₀] using this
  exact Prod.ext h1 (List.map_injective_iff.mpr hf h2)

/-- C4 amended: a column survives the Created filter iff its sum exceeds 0.1
and the Consumed filter iff its sum is below -0.1; when the column sum has the
view's natural sign (nonnegative for Created, nonpositive for the sign-flipped
Consumed) this coincides with "absolute summed magnitude exceeds 0.1"; a
column whose absolute sum is exactly 0.1 is excluded from both views, and
sums of 0.1001 (resp. -0.1001) are included.  Surviving the filter is the same
as the scaled column appearing in the final view. -/
theorem energy_threshold_filtering (t : List (String × List ℚ)) (c : String × List ℚ)
    (hc : c ∈ t) :
    (c ∈ t.filter created_keeps ↔ (1 : ℚ)/10 < colSum c) ∧
    (c ∈ t.filter consumed_keeps ↔ colSum c < -((1 : ℚ)/10)) ∧
    (0 ≤ colSum c → (c ∈ t.filter created_keeps ↔ (1 : ℚ)/10 < |colSum c|)) ∧
    (colSum c ≤ 0 → (c ∈ t.filter consumed_keeps ↔ (1 : ℚ)/10 < |colSum c|)) ∧
    (|colSum c| = (1 : ℚ)/10 → c ∉ t.filter created_keeps ∧ c ∉ t.filter consumed_keeps) ∧
    (scale_col c ∈ filter_created t ↔ c ∈ t.filter created_keeps) ∧
    (scale_col c ∈ filter_consumed t ↔ c ∈ t.filter consumed_keeps) ∧
    created_keeps ((("E"), [(1001 : ℚ)/10000])) = true ∧
    consumed_keeps ((("E"), [-((1001 : ℚ)/10000)])) = true := by
  have h1 : c ∈ t.filter created_keeps ↔ (1 : ℚ)/10 < colSum c := by
    simp [List.mem_filter, created_keeps, hc]
  have h2 : c ∈ t.filter consumed_keeps ↔ colSum c < -((1 : ℚ)/10) := by
    simp [List.mem_filter, consumed_keeps, hc]
  have hmap : ∀ (p : String × List ℚ → Bool),
      scale_col c ∈ (t.filter p).map scale_col ↔ c ∈ t.filter p := by
    intro p
    constructor
    · intro hm
      obtain ⟨a, ha, hae⟩ := List.mem_map.mp hm
      exact scale_col_injective hae ▸ ha
    · exact List.mem_map_of_mem scale_col
  refine ⟨h1, h2, ?_, ?_, ?_, hmap created_keeps, hmap consumed_keeps, ?_, ?_⟩
  · intro hpos
    rw [h1, abs_of_nonneg hpos]
  · intro hneg
    rw [h2, abs_of_nonpos hneg]
    constructor
    · intro h
      linarith
    · intro h
      linarith
  · intro habs
    rcases abs_eq (by norm_num : (0 : ℚ) ≤ 1/10) |>.mp habs with h | h
    · exact ⟨fun hh => by rw [h1] at hh; linarith [h ▸ hh],
        fun hh => by rw [h2] at hh; linarith [h ▸ hh]⟩
    · exact ⟨fun hh => by rw [h1] at hh; linarith [h ▸ hh],
        fun hh => by rw [h2] at hh; linarith [h ▸ hh]⟩
  · simp only [created_keeps, colSum, List.sum_cons, List.sum_nil, decide_eq_true_eq]
    norm_num
  · simp only [consumed_keeps, colSum, List.sum_cons, List.sum_nil, decide_eq_true_eq]
    norm_num

theorem energy_threshold_filtering_witness :
    (("W"), [(1 : ℚ)]) ∈ ([(("W"), [(1 : ℚ)])]).filter created_keeps :=
  ((energy_threshold_filtering ([(("W"), [(1 : ℚ)])]) ((("W"), [(1 : ℚ)]))
    (by decide)).1).mpr (by norm_num [colSum])

/-- C5: after the broadening and zeroing of the retrieved-storage table, every
row whose commodity is "Elec" has Reservoir = 0 and every row whose commodity
is "Heat" has Battery = 0, for every scenario. -/
theorem storage_split_zeroing (rows : List (String × String × ℚ)) (r : StoRow)
    (hr : r ∈ sto_split rows) :
    (r.commodity = ("Elec") → r.reservoir = 0) ∧
    (r.commodity = ("Heat") → r.battery = 0) := by
  unfold sto_split at hr
  rw [(List.perm_insertionSort stoRowLe2 _).mem_iff] at hr
  unfold zero_heat_battery at hr
  obtain ⟨s, hs, rfl⟩ := List.mem_map.mp hr
  unfold zero_elec_reservoir at hs
  obtain ⟨u, hu, rfl⟩ := List.mem_map.mp hs
  have hEH : ("Elec" : String) ≠ ("Heat") := by decide
  by_cases h1 : u.commodity = ("Elec")
  · simp [h1, hEH]
  · by_cases h2 : u.commodity = ("Heat")
    · simp [h1, h2, hEH.symm]
    · simp [h1, h2]

theorem storage_split_zeroing_witness :
    (StoRow.mk ("base") ("Elec") ((5 : ℚ)/1000) 0).reservoir = 0 ∧
    (StoRow.mk ("base") ("Heat") 0 ((7 : ℚ)/1000)).battery = 0 :=
  ⟨(storage_split_zeroing ([(("base"), ("Elec"), (5 : ℚ))])
      (StoRow.mk ("base") ("Elec") ((5 : ℚ)/1000) 0)
      (by simp [sto_split, sto_scale, broaden_sto, zero_elec_reservoir, zero_heat_battery,
        List.insertionSort, List.orderedInsert])).1 (by decide),
   (storage_split_zeroing ([(("base"), ("Heat"), (7 : ℚ))])
      (StoRow.mk ("base") ("Heat") 0 ((7 : ℚ)/1000))
      (by simp [sto_split, sto_scale, broaden_sto, zero_elec_reservoir, zero_heat_battery,
        List.insertionSort, List.orderedInsert])).2 (by decide)⟩

/-! ### Claim theorems C8, C9 -/

/-- C8 as stated is false on one point: the guard `if not inner_sep` is
truthiness-based, so a caller-supplied `inner_sep = 0.0` is also replaced by
the default `0.5 * (1 - bar_height)`.  With `bar_height = 1/2`, `group_size =
3` and supplied `inner_sep = 0`, the code places row 0 at offset 0 while the
claimed formula (using the supplied separation 0) places it at 1/4. -/
theorem group_hbar_falsy_counterexample :
    patch_y 3 ((1 : ℚ)/2) (some 0) 0 ≠ claimed_patch_y 3 ((1 : ℚ)/2) 0 0 := by
  norm_num [patch_y, claimed_patch_y, effective_inner_sep, default_inner_sep, group_offset]

/-- C8 amended: every patch at row index `r` gets vertical offset
`row_within_group * (bar_height + inner_sep) + group_offset` with
`(group_number, row_within_group) = divmod(r, group_size)` and
`group_offset = group_number * group_size + 0.5*(group_size-1)*(1-inner_sep)
- 0.5*(group_size*bar_height)`, where `inner_sep` is the supplied value if it
is non-zero, and otherwise (not supplied, or supplied as the falsy `0.0`)
defaults to `0.5 * (1 - bar_height)`. -/
theorem group_hbar_offset_formula (group_size : ℕ) (bar_height : ℚ) (row : ℕ) :
    (∀ s : ℚ, s ≠ 0 →
      patch_y group_size bar_height (some s) row =
        claimed_patch_y group_size bar_height s row) ∧
    patch_y group_size bar_height none row =
      claimed_patch_y group_size bar_height (default_inner_sep bar_height) row ∧
    patch_y group_size bar_height (some 0) row =
      claimed_patch_y group_size bar_height (default_inner_sep bar_height) row := by
  refine ⟨fun s hs => ?_, ?_, ?_⟩
  · simp [patch_y, claimed_patch_y, effective_inner_sep, hs]
  · simp [patch_y, claimed_patch_y, effective_inner_sep]
  · simp [patch_y, claimed_patch_y, effective_inner_sep]

theorem group_hbar_offset_formula_witness :
    patch_y 3 ((1 : ℚ)/2) (some ((1 : ℚ)/4)) 1 = claimed_patch_y 3 ((1 : ℚ)/2) ((1 : ℚ)/4) 1 :=
  (group_hbar_offset_formula 3 ((1 : ℚ)/2) 1).1 ((1 : ℚ)/4) (by norm_num)

/-- C9: with `group_size = 3`, rows 0, 1, 2 get strictly increasing offsets
lying between `group_offset` and `group_offset + 2*(bar_height + inner_sep)`,
and row 3 (first row of the next group) lies strictly above row 2.  The bar
geometry is assumed sane: the effective row pitch `bar_height + inner_sep` is
positive and below 3/2 (with the default separation this holds for any
`bar_height` in (0, 1]). -/
theorem grouped_bar_layout_monotone (bar_height : ℚ) (inner_sep : Option ℚ)
    (hpos : 0 < bar_height + effective_inner_sep bar_height inner_sep)
    (hlt : bar_height + effective_inner_sep bar_height inner_sep < 3/2) :
    patch_y 3 bar_height inner_sep 0 < patch_y 3 bar_height inner_sep 1 ∧
    patch_y 3 bar_height inner_sep 1 < patch_y 3 bar_height inner_sep 2 ∧
    group_offset 3 bar_height (effective_inner_sep bar_height inner_sep) 0 ≤
      patch_y 3 bar_height inner_sep 0 ∧
    patch_y 3 bar_height inner_sep 2 ≤
      group_offset 3 bar_height (effective_inner_sep bar_height inner_sep) 0 +
        2 * (bar_height + effective_inner_sep bar_height inner_sep) ∧
    patch_y 3 bar_height inner_sep 2 < patch_y 3 bar_height inner_sep 3 := by
  generalize hsep : effective_inner_sep bar_height inner_sep = sep at *
  simp only [patch_y, group_offset, hsep]
  norm_num
  refine ⟨by linarith, by linarith, by linarith, by linarith⟩

theorem grouped_bar_layout_monotone_witness :
    patch_y 3 ((1 : ℚ)/2) none 0 < patch_y 3 ((1 : ℚ)/2) none 1 ∧
    patch_y 3 ((1 : ℚ)/2) none 1 < patch_y 3 ((1 : ℚ)/2) none 2 ∧
    group_offset 3 ((1 : ℚ)/2) (effective_inner_sep ((1 : ℚ)/2) none) 0 ≤
      patch_y 3 ((1 : ℚ)/2) none 0 ∧
    patch_y 3 ((1 : ℚ)/2) none 2 ≤
      group_offset 3 ((1 : ℚ)/2) (effective_inner_sep ((1 : ℚ)/2) none) 0 +
        2 * ((1 : ℚ)/2 + effective_inner_sep ((1 : ℚ)/2) none) ∧
    patch_y 3 ((1 : ℚ)/2) none 2 < patch_y 3 ((1 : ℚ)/2) none 3 :=
  grouped_bar_layout_monotone ((1 : ℚ)/2) none
    (by norm_num [effective_inner_sep, default_inner_sep])
    (by norm_num [effective_inner_sep, default_inner_sep])

/-! ### Helper lemmas: `dedupPairs` -/

theorem dedupPairs_label_not_mem_seen {H : Type} {ps : List (H × String)}
    {seen : List String} {p : H × String} (hp : p ∈ dedupPairs ps seen) :
    p.2 ∉ seen := by
  induction ps generalizing seen with
  | nil => simp [dedupPairs] at hp
  | cons q ps ih =>
    simp only [dedupPairs] at hp
    by_cases hq : q.2 ∈ seen
    · rw [if_pos hq] at hp
      exact ih hp
    · rw [if_neg hq] at hp
      rcases List.mem_cons.mp hp with rfl | hp
      · exact hq
      · exact fun hmem => ih hp (List.mem_cons_of_mem _ hmem)

theorem dedupPairs_find {H : Type} {ps : List (H × String)} {seen : List String}
    {p : H × String} (hp : p ∈ dedupPairs ps seen) :
    ps.find? (fun q => q.2 == p.2) = some p := by
  induction ps generalizing seen with
  | nil => simp [dedupPairs] at hp
  | cons q ps ih =>
    simp only [dedupPairs] at hp
    by_cases hq : q.2 ∈ seen
    · rw [if_pos hq] at hp
      have hne : q.2 ≠ p.2 := fun h => (dedupPairs_label_not_mem_seen hp) (h ▸ hq)
      rw [List.find?_cons_of_neg _ (by simp [hne])]
      exact ih hp
    · rw [if_neg hq] at hp
      rcases List.mem_cons.mp hp with rfl | hp
      · rw [List.find?_cons_of_pos _ (by simp)]
      · have hnotin := dedupPairs_label_not_mem_seen hp
        have hne : q.2 ≠ p.2 := fun h => hnotin (h ▸ List.mem_cons_self _ _)
        rw [List.find?_cons_of_neg _ (by simp [hne])]
        exact ih hp

theorem dedupPairs_mem_label {H : Type} {ps : List (H × String)} {seen : List String}
    {l : String} :
    l ∈ (dedupPairs ps seen).map Prod.snd ↔ l ∈ ps.map Prod.snd ∧ l ∉ seen := by
  induction ps generalizing seen with
  | nil => simp [dedupPairs]
  | cons q ps ih =>
    simp only [dedupPairs]
    by_cases hq : q.2 ∈ seen
    · rw [if_pos hq, ih]
      simp only [List.map_cons, List.mem_cons]
      constructor
      · rintro ⟨h1, h2⟩
        exact ⟨Or.inr h1, h2⟩
      · rintro ⟨h1 | h1, h2⟩
        · exact absurd (h1 ▸ hq) h2
        · exact ⟨h1, h2⟩
    · rw [if_neg hq]
      simp only [List.map_cons, List.mem_cons, ih, List.mem_cons]
      constructor
      · rintro (rfl | ⟨h1, h2⟩)
        · exact ⟨Or.inl rfl, hq⟩
        · exact ⟨Or.inr h1, fun hmem => h2 (Or.inr hmem)⟩
      · rintro ⟨h1, h2⟩
        by_cases hl : l = q.2
        · exact Or.inl hl
        · rcases h1 with h1 | h1
          · exact absurd h1 hl
          · exact Or.inr ⟨h1, fun hmem => hmem.elim hl h2⟩

theorem dedupPairs_labels_nodup {H : Type} (ps : List (H × String)) (seen : List String) :
    ((dedupPairs ps seen).map Prod.snd).Nodup := by
  induction ps generalizing seen with
  | nil => simp [dedupPairs]
  | cons q ps ih =>
    simp only [dedupPairs]
    by_cases hq : q.2 ∈ seen
    · rw [if_pos hq]
      exact ih seen
    · rw [if_neg hq]
      simp only [List.map_cons, List.nodup_cons]
      refine ⟨fun hmem => ?_, ih _⟩
      rw [dedupPairs_mem_label] at hmem
      exact hmem.2 (List.mem_cons_self _ _)

theorem dedupPairs_length_le {H : Type} (ps : List (H × String)) (seen : List String) :
    (dedupPairs ps seen).length ≤ ps.length := by
  induction ps generalizing seen with
  | nil => simp [dedupPairs]
  | cons q ps ih =>
    simp only [dedupPairs]
    by_cases hq : q.2 ∈ seen
    · rw [if_pos hq]
      exact (ih seen).trans (by simp)
    · rw [if_neg hq]
      simpa using ih (q.2 :: seen)

theorem dedupPairs_of_nodup {H : Type} {ps : List (H × String)} {seen : List String}
    (hnd : (ps.map Prod.snd).Nodup) (hdis : ∀ p ∈ ps, p.2 ∉ seen) :
    dedupPairs ps seen = ps := by
  induction ps generalizing seen with
  | nil => simp [dedupPairs]
  | cons q ps ih =>
    simp only [List.map_cons, List.nodup_cons] at hnd
    simp only [dedupPairs]
    rw [if_neg (hdis q (List.mem_cons_self q ps))]
    congr 1
    apply ih hnd.2
    intro p hp hmem
    rcases List.mem_cons.mp hmem with h | h
    · exact hnd.1 (h ▸ List.mem_map_of_mem Prod.snd hp)
    · exact hdis p (List.mem_cons_of_mem q hp) h

theorem dedupPairs_nonempty {H : Type} {q : H × String} (ps : List (H × String)) :
    dedupPairs (q :: ps) [] = q :: dedupPairs ps [q.2] := by
  simp [dedupPairs]

/-! ### Claim theorems C6, C7 -/

/-- C6: for equal-length non-empty inputs, `deduplicate_legend` succeeds and
returns labels that are exactly the distinct labels of the input, sorted
lexicographically ascending, each paired with the handle of its first
occurrence in the input; the output is no longer than the input, and for
duplicate-free input the output pair list is a (sorted) permutation of the
input pair list. -/
theorem deduplicate_legend_spec (H : Type) (handles : List H) (labels : List String)
    (hlen : handles.length = labels.length) (hne : labels ≠ []) :
    ∃ hs ls, deduplicate_legend handles labels = some (hs, ls) ∧
      ls.Sorted (fun a b => a ≤ b) ∧
      ls.Nodup ∧
      (∀ l, l ∈ ls ↔ l ∈ labels) ∧
      hs.length = ls.length ∧
      ls.length ≤ labels.length ∧
      (∀ p ∈ hs.zip ls, (handles.zip labels).find? (fun q => q.2 == p.2) = some p) ∧
      (labels.Nodup → (hs.zip ls).Perm (handles.zip labels)) := by
  have hperm : List.Perm
      (List.insertionSort (legendLe H) (dedupPairs (handles.zip labels) []))
      (dedupPairs (handles.zip labels) []) :=
    List.perm_insertionSort (legendLe H) _
  obtain ⟨s, ss, hs'⟩ : ∃ s ss,
      List.insertionSort (legendLe H) (dedupPairs (handles.zip labels) []) = s :: ss := by
    obtain ⟨a, as, hp⟩ : ∃ a as, handles.zip labels = a :: as := by
      cases hlab : labels with
      | nil => exact absurd hlab hne
      | cons x xs =>
        cases hh : handles with
        | nil =>
          rw [hh, hlab] at hlen
          simp at hlen
        | cons y ys => exact ⟨(y, x), ys.zip xs, by simp [hh, hlab]⟩
    have hne2 : dedupPairs (handles.zip labels) [] ≠ [] := by
      rw [hp, dedupPairs_nonempty]
      exact List.cons_ne_nil _ _
    have hlen2 := hperm.length_eq
    cases hsp : List.insertionSort (legendLe H) (dedupPairs (handles.zip labels) []) with
    | nil =>
      rw [hsp] at hlen2
      exact absurd (List.length_eq_zero.mp hlen2.symm) hne2
    | cons s ss => exact ⟨s, ss, rfl⟩
  rw [hs'] at hperm
  refine ⟨(s :: ss).map Prod.fst, (s :: ss).map Prod.snd, ?_, ?_, ?_, ?_, ?_, ?_, ?_, ?_⟩
  · simp only [deduplicate_legend, hs']
  · have hsorted := List.sorted_insertionSort (legendLe H) (dedupPairs (handles.zip labels) [])
    rw [hs'] at hsorted
    exact List.pairwise_map.mpr hsorted
  · exact ((hperm.map Prod.snd).nodup_iff).mpr (dedupPairs_labels_nodup _ _)
  · intro l
    rw [(hperm.map Prod.snd).mem_iff, dedupPairs_mem_label]
    have hsnd : (handles.zip labels).map Prod.snd = labels :=
      List.map_snd_zip _ _ hlen.ge
    simp [hsnd]
  · simp
  · have h1 : ((s :: ss).map Prod.snd).length = (s :: ss).length := List.length_map _ _
    have h2 : (s :: ss).length = (dedupPairs (handles.zip labels) []).length :=
      hperm.length_eq
    have h3 := dedupPairs_length_le (handles.zip labels) []
    have h4 : (handles.zip labels).length ≤ labels.length := by
      rw [List.length_zip]
      omega
    omega
  · intro p hp
    have hpz : ((s :: ss).map Prod.fst).zip ((s :: ss).map Prod.snd) = s :: ss := by
      rw [List.zip_map']
      simp
    rw [hpz] at hp
    exact dedupPairs_find (hperm.mem_iff.mp hp)
  · intro hnd
    have hpz : ((s :: ss).map Prod.fst).zip ((s :: ss).map Prod.snd) = s :: ss := by
      rw [List.zip_map']
      simp
    rw [hpz]
    have hsnd : (handles.zip labels).map Prod.snd = labels :=
      List.map_snd_zip _ _ hlen.ge
    have hid : dedupPairs (handles.zip labels) [] = handles.zip labels :=
      dedupPairs_of_nodup (by rw [hsnd]; exact hnd) (fun p _ => List.not_mem_nil p.2)
    rw [hid] at hperm
    exact hperm

theorem deduplicate_legend_spec_witness :
    ∃ hs ls, deduplicate_legend ([10, 20, 30] : List ℕ) (["b", "a", "b"]) = some (hs, ls) ∧
      ls.Sorted (fun a b => a ≤ b) ∧
      ls.Nodup ∧
      (∀ l, l ∈ ls ↔ l ∈ (["b", "a", "b"] : List String)) ∧
      hs.length = ls.length ∧
      ls.length ≤ (["b", "a", "b"] : List String).length ∧
      (∀ p ∈ hs.zip ls,
        (([10, 20, 30] : List ℕ).zip (["b", "a", "b"])).find? (fun q => q.2 == p.2) = some p) ∧
      ((["b", "a", "b"] : List String).Nodup →
        (hs.zip ls).Perm (([10, 20, 30] : List ℕ).zip (["b", "a", "b"]))) :=
  deduplicate_legend_spec ℕ ([10, 20, 30]) (["b", "a", "b"]) (by decide) (by decide)

/-- C7 as stated is false: on two empty sequences the final unpacking
`new_labels, new_handles = (list(t) for t in zip(*sorted(zip(...))))` raises
`ValueError` (zip of no arguments yields no tuples to unpack), modelled as a
`none` result, instead of returning a pair of empty sequences. -/
theorem deduplicate_legend_empty_counterexample :
    deduplicate_legend ([] : List ℕ) [] = none := rfl

/-- C7 amended: calling `deduplicate_legend` on two empty sequences does not
return a pair of empty sequences; the final unpacking raises `ValueError`
(modelled as `none`), so callers must guard the empty case themselves. -/
theorem deduplicate_legend_empty (H : Type) :
    deduplicate_legend ([] : List H) [] = none := rfl

end Comp
